import Mathlib

set_option maxHeartbeats 1000000

/-!
Verification development for the S3 binary cache store
(`src/libstore/s3-binary-cache-store.cc`, `src/libstore/s3.hh`).

The C++ code is shallowly embedded: C++ `std::string` values become `List Char`,
byte buffers become `List Nat`, sizes become `Nat`, and the concurrent chunked
downloader becomes a small-step transition system on an explicit state record
mirroring the local variables of the sink-based `S3Helper::getObject`
(`next_chunk_offset`, the `transfers` map, the `chunks` deque, the per-chunk
promise results, and what has been written to the sink).
-/

namespace NixS3

/-- C++ `std::string`, modelled as its character list. -/
abbrev Str := List Char

/-- Embedding of nix's `hasSuffix(s, suffix)` utility: true iff `s` ends with
`suffix`. -/
def hasSuffix (s suffix : Str) : Bool := suffix.isSuffixOf s

/-! ## Bucket enumerator (`queryAllValidPaths`, lines 589-619) -/

/-- The fixed metadata-object suffix `".narinfo"`. -/
def narinfoSuffix : Str := ".narinfo".toList

/-- The per-key skip condition at line 611:
`if (key.size() != 40 || !hasSuffix(key, ".narinfo")) continue;`. -/
def keySkipped (key : Str) : Bool :=
  key.length != 40 || !(hasSuffix key narinfoSuffix)

/-- A key qualifies for decoding iff it is not skipped. -/
def keyQualifies (key : Str) : Bool := !(keySkipped key)

/-- The decoding at line 612: `storeDir + "/" + key.substr(0, key.size() - 8)
+ "-" + MissingName` (the argument handed to `parseStorePath`). -/
def decodeKey (storeDir missingName key : Str) : Str :=
  storeDir ++ ('/' :: (key.take (key.length - 8) ++ ('-' :: missingName)))

/-- Processing of one listing page: every non-skipped key is decoded, all
other keys are dropped (the body of the `for (auto object : contents)` loop;
the resulting identifiers are accumulated into `paths`, here kept as the
page's list of decoded identifiers in key order). -/
def queryAllValidPathsPage (storeDir missingName : Str) (keys : List Str) : List Str :=
  (keys.filter keyQualifies).map (decodeKey storeDir missingName)

/-! ## Validity checker (`fileExists`, lines 432-452) -/

/-- The S3 error classifications distinguished by `fileExists`; every other
member of the `Aws::S3::S3Errors` enumeration is collapsed into `other`
(tagged by its numeric value), since the code treats them all alike. -/
inductive S3Errors where
  | RESOURCE_NOT_FOUND
  | NO_SUCH_KEY
  | ACCESS_DENIED
  | other (code : Nat)
  deriving DecidableEq, Repr

/-- Outcome of the `HeadObject` call made by `fileExists`. -/
inductive HeadObjectOutcome where
  | success
  | error (e : S3Errors) (msg : Str)
  deriving DecidableEq, Repr

/-- What `fileExists` does: return a boolean or throw. -/
inductive FileExistsResult where
  | returns (b : Bool)
  | throws (msg : Str)
  deriving DecidableEq, Repr

/-- Embedding of `S3BinaryCacheStoreImpl::fileExists` (lines 432-452): on
success return true; on `RESOURCE_NOT_FOUND`, `NO_SUCH_KEY` or
`ACCESS_DENIED` return false; on any other error classification throw
`Error("AWS error fetching '%s': %s", path, error.GetMessage())`. -/
def fileExists (res : HeadObjectOutcome) : FileExistsResult :=
  match res with
  | .success => .returns true
  | .error e msg =>
    if e = .RESOURCE_NOT_FOUND ∨ e = .NO_SUCH_KEY ∨ e = .ACCESS_DENIED then
      .returns false
    else
      .throws msg

/-! ## Compressing uploader (`uploadFile`, lines 457-549) -/

/-- The terminal and non-terminal states of `Aws::Transfer::TransferStatus`. -/
inductive TransferStatus where
  | NOT_STARTED
  | IN_PROGRESS
  | CANCELED
  | FAILED
  | COMPLETED
  | ABORTED
  | EXACT_OBJECT_ALREADY_EXISTS
  deriving DecidableEq, Repr

/-- A network transfer attempted by `uploadFile`. -/
inductive NetAction where
  | multipartUploadStart
  | putObject (contentEncoding : Str)
  deriving DecidableEq, Repr

/-- How `uploadFile` terminates. -/
inductive UploadOutcome where
  | ok
  | errorContentEncodingWithMultipart
  | errorTransferFailed (msg : Str)
  | errorUnexpectedState
  | errorPut (msg : Str)
  deriving DecidableEq, Repr

/-- Embedding of `S3BinaryCacheStoreImpl::uploadFile` (lines 457-549).
`multipartUpload` is the store setting (the `transferManager` is created,
once, exactly when that setting holds, so `if (transferManager)` is the
setting); `status` is the terminal status `WaitUntilFinished` reports and
`lastError` the engine's `GetLastError().GetMessage()`; `putResult` is the
outcome of the single-shot `PutObject` (`none` = success, `some msg` = the
error `checkAws` throws).  The returned list records which network transfers
were attempted, in order. -/
def uploadFile (multipartUpload : Bool) (contentEncoding : Str)
    (status : TransferStatus) (lastError : Str) (putResult : Option Str) :
    List NetAction × UploadOutcome :=
  if multipartUpload then
    if contentEncoding ≠ [] then
      ([], .errorContentEncodingWithMultipart)
    else
      ([.multipartUploadStart],
        if status = .FAILED then .errorTransferFailed lastError
        else if status ≠ .COMPLETED then .errorUnexpectedState
        else .ok)
  else
    ([.putObject contentEncoding],
      match putResult with
      | none => .ok
      | some msg => .errorPut msg)

/-! ## `FileTransferResult` and `getFile` (s3.hh lines 28-33, .cc lines 571-587) -/

/-- `S3Helper::FileTransferResult` (s3.hh lines 28-33). -/
structure FileTransferResult where
  data : Option (List Nat)
  data_size : Option Nat
  durationMs : Nat
  deriving DecidableEq, Repr

/-- The result value the sink-based `S3Helper::getObject` overload returns
(lines 334-339): only `data_size` and `durationMs` are ever assigned; the
`data` field is left `std::nullopt`. -/
def getObject_sink_result (object_size durationMs : Nat) : FileTransferResult :=
  { data := none, data_size := some object_size, durationMs := durationMs }

/-- How `getFile` terminates. -/
inductive GetFileResult where
  | delivered
  | noSuchFile
  deriving DecidableEq, Repr

/-- Embedding of the tail of `S3BinaryCacheStoreImpl::getFile` (lines
578-587): if `res.data` is set the download is reported, otherwise
`NoSuchBinaryCacheFile` is thrown. -/
def getFile (res : FileTransferResult) : GetFileResult :=
  match res.data with
  | some _ => .delivered
  | none => .noSuchFile

/-! ## Chunked downloader (sink-based `S3Helper::getObject`, lines 209-340)

The object being fetched is `obj : Nat → Nat` (the byte at each offset) of
total size `size` (the value the `getObjectSize` HEAD probe reports).  The
local state of one `getObject` invocation is an explicit record; the
interleaving of the consumer thread and the transfer-manager worker threads
(which mutate that state under the single mutex `m`) is a small-step
transition relation.  One atomicity coarsening is made: the consumer's
"wait on the oldest future, write its bytes to the sink, pop it, reschedule"
sequence - two critical sections in the source with the sink call between
them - is one step here; callbacks interleaved between those two sections
only resolve other chunks and re-run a scheduling pass whose guard is
unaffected by the pending pop, so no claim-relevant behaviour is lost. -/

/-- `constexpr std::size_t chunk_size = 32 * 1024 * 1024;` (line 227). -/
def chunk_size : Nat := 32 * 1024 * 1024

/-- `constexpr std::size_t max_transfers = 3;` (line 231). -/
def max_transfers : Nat := 3

/-- `constexpr std::size_t max_chunks = 5;` (line 234). -/
def max_chunks : Nat := 5

/-- One `DownloadFile` range request: the `fileOffset` and `downloadBytes`
arguments passed to the transfer manager (line 276). -/
structure Request where
  offset : Nat
  reqLen : Nat
  deriving DecidableEq, Repr

/-- The state of one chunk's promise: unfulfilled, fulfilled with its bytes
(`Chunk::complete`, line 251), or fulfilled with an exception
(`set_exception`, line 260). -/
inductive ChunkResult where
  | pending
  | done
  | failed
  deriving DecidableEq, Repr

/-- The local state of one sink-based `getObject` invocation.  Chunks are
identified by their submission index: `submitted` records every
`DownloadFile` call made so far in order, `transfers` is the key set of the
in-flight `transfers` map, `chunks` the deque of not-yet-consumed futures
(FIFO), `results` the promise state of each submitted chunk, `consumed` how
many futures the consumer has popped, `delivered` the byte blocks written to
the sink in order, and `failedAt` the chunk whose exception the consumer has
re-raised (aborting the fetch), if any. -/
structure DLState where
  nextOffset : Nat
  submitted : List Request
  transfers : List Nat
  chunks : List Nat
  results : List ChunkResult
  consumed : Nat
  delivered : List (List Nat)
  failedAt : Option Nat
  deriving DecidableEq, Repr

/-- The guard of the `while` loop inside `start_downloads` (line 272):
`next_chunk_offset < object_size and transfers.size() < max_transfers and
chunks.size() < max_chunks`. -/
def canSubmit (size : Nat) (s : DLState) : Prop :=
  s.nextOffset < size ∧ s.transfers.length < max_transfers ∧ s.chunks.length < max_chunks

instance (size : Nat) (s : DLState) : Decidable (canSubmit size s) := by
  unfold canSubmit; infer_instance

/-- One iteration of the `start_downloads` loop body (lines 274-280): call
`DownloadFile(bucketName, key, next_chunk_offset, chunk_size, ...)` - note
the requested length is the constant `chunk_size`, while the separately
computed `download_size = min(chunk_size, object_size - next_chunk_offset)`
only advances the cursor - then push the new chunk's future on the deque and
its handle into the in-flight map. -/
def submitChunk (size : Nat) (s : DLState) : DLState :=
  let download_size := min chunk_size (size - s.nextOffset)
  { s with
    nextOffset := s.nextOffset + download_size
    submitted := s.submitted ++ [⟨s.nextOffset, chunk_size⟩]
    transfers := s.transfers ++ [s.submitted.length]
    chunks := s.chunks ++ [s.submitted.length]
    results := s.results ++ [ChunkResult.pending] }

/-- Fuelled unrolling of the `start_downloads` while loop.  Each iteration
appends one element to `chunks` and the guard requires
`chunks.size() < max_chunks`, so the source loop performs at most
`max_chunks` iterations per call; `start_downloads_stops_full` below proves
that with fuel `max_chunks` the unrolling never stops while the guard still
holds, i.e. that this is exactly the while loop. -/
def start_downloads_fuel (size : Nat) : Nat → DLState → DLState
  | 0, s => s
  | fuel + 1, s =>
    if canSubmit size s then start_downloads_fuel size fuel (submitChunk size s) else s

/-- The `start_downloads` closure (lines 271-282). -/
def start_downloads (size : Nat) (s : DLState) : DLState :=
  start_downloads_fuel size max_chunks s

/-- The bytes the transport writes into a chunk's stream when its transfer
completes: the object bytes in `[offset, offset + min(reqLen, size -
offset))` - a ranged GET is clamped by the remote store at the end of the
object, so a request reaching past the end delivers only the bytes that
exist.  These are the bytes `sink(...view())` later hands to the sink. -/
def chunkData (obj : Nat → Nat) (size : Nat) (r : Request) : List Nat :=
  (List.range' r.offset (min r.reqLen (size - r.offset))).map obj

/-- `downloadProgressCallback`, `COMPLETED` arm (lines 250-252), as
*intended*: fulfil the chunk's promise, erase it from the in-flight map,
then re-run `start_downloads` - all under the lock.  This is what the arm
would do if `Chunk::complete` returned; in the program as written
`Chunk::complete` throws `std::bad_weak_ptr` before `set_value` (see
`Chunk_complete` and `doNetCompleteReal` below), so this transition
over-approximates the executed arm, which leaves the state unchanged
(`reachReal_sub_reach` makes the over-approximation formal). -/
def doNetComplete (size : Nat) (s : DLState) (i : Nat) : DLState :=
  start_downloads size
    { s with
      transfers := s.transfers.erase i
      results := s.results.set i ChunkResult.done }

/-- `downloadProgressCallback`, `default` arm (lines 254-264): store the
`runtime_error("Error from AWS")` exception in the chunk's promise, erase it
from the in-flight map, then re-run `start_downloads`. -/
def doNetFail (size : Nat) (s : DLState) (i : Nat) : DLState :=
  start_downloads size
    { s with
      transfers := s.transfers.erase i
      results := s.results.set i ChunkResult.failed }

/-- One successful pass of the consumer loop (lines 289-302): get the value
of the oldest future, write its stream's contents to the sink, pop it from
the deque, re-run `start_downloads`. -/
def doConsume (size : Nat) (obj : Nat → Nat) (s : DLState) (f : Nat) : DLState :=
  start_downloads size
    { s with
      chunks := s.chunks.tail
      consumed := s.consumed + 1
      delivered := s.delivered ++ [chunkData obj size (s.submitted.getD f ⟨0, 0⟩)] }

/-- The consumer's `chunks.front().get()` re-raising the stored exception:
the fetch aborts (the deque is not popped, nothing further is written to the
sink, the whole `getObject` call unwinds). -/
def doFail (s : DLState) (f : Nat) : DLState := { s with failedAt := some f }

/-- The state right after the local variable declarations (lines 223-226):
everything empty, cursor at 0. -/
def initState : DLState :=
  { nextOffset := 0, submitted := [], transfers := [], chunks := [],
    results := [], consumed := 0, delivered := [], failedAt := none }

/-- The state after the initial locked `start_downloads()` call (lines
284-287). -/
def startState (size : Nat) : DLState := start_downloads size initState

/-- The interleaved small-step semantics of one sink-based `getObject`
invocation, with the `COMPLETED` arm taken as intended (promise fulfilled).
`netProgress` is the callback's `NOT_STARTED`/`IN_PROGRESS` arm (which
still re-runs `start_downloads`); `netComplete`/`netFail` are its terminal
arms for some in-flight transfer; `consumeOk`/`consumeFail` are the
consumer loop waiting on the oldest future (possible only while the fetch
has not already aborted, and only when that future has been fulfilled).
The executed `COMPLETED` arm throws instead of fulfilling (see `StepReal`
below); every state the executed program reaches is also reachable here
(`reachReal_sub_reach`), so safety properties proven over `Reach` cover the
executed program. -/
inductive Step (size : Nat) (obj : Nat → Nat) : DLState → DLState → Prop where
  | netProgress (s : DLState) : Step size obj s (start_downloads size s)
  | netComplete (s : DLState) (i : Nat) :
      i ∈ s.transfers → Step size obj s (doNetComplete size s i)
  | netFail (s : DLState) (i : Nat) :
      i ∈ s.transfers → Step size obj s (doNetFail size s i)
  | consumeOk (s : DLState) (f : Nat) :
      s.failedAt = none → s.chunks.head? = some f →
      s.results[f]? = some ChunkResult.done → Step size obj s (doConsume size obj s f)
  | consumeFail (s : DLState) (f : Nat) :
      s.failedAt = none → s.chunks.head? = some f →
      s.results[f]? = some ChunkResult.failed → Step size obj s (doFail s f)

/-- The states one `getObject` invocation can reach. -/
inductive Reach (size : Nat) (obj : Nat → Nat) : DLState → Prop where
  | init : Reach size obj (startState size)
  | step {s t : DLState} : Reach size obj s → Step size obj s t → Reach size obj t

/-! ## The downloader invariant -/

/-- The request the `i`-th submitted chunk carries: offset `i * chunk_size`,
requested length the constant `chunk_size`. -/
def reqOf (i : Nat) : Request := ⟨i * chunk_size, chunk_size⟩

/-- Invariant of the downloader state, except for the scheduling fixpoint
property (which holds between, but not within, `start_downloads` passes). -/
structure Inv (size : Nat) (obj : Nat → Nat) (s : DLState) : Prop where
  sub_eq : s.submitted = (List.range s.submitted.length).map reqOf
  sub_lt : ∀ i < s.submitted.length, i * chunk_size < size
  off_eq : s.nextOffset = min (s.submitted.length * chunk_size) size
  res_len : s.results.length = s.submitted.length
  consumed_le : s.consumed ≤ s.submitted.length
  chunks_eq : s.chunks = List.range' s.consumed (s.submitted.length - s.consumed)
  tr_sub : ∀ i ∈ s.transfers, i ∈ s.chunks
  tr_nodup : s.transfers.Nodup
  tr_pending : ∀ i ∈ s.transfers, s.results[i]? = some ChunkResult.pending
  done_before : ∀ i < s.consumed, s.results[i]? = some ChunkResult.done
  delivered_eq : s.delivered
    = (List.range s.consumed).map (fun j => chunkData obj size (reqOf j))
  bound_tr : s.transfers.length ≤ max_transfers
  bound_ch : s.chunks.length ≤ max_chunks
  failed_inv : ∀ f, s.failedAt = some f →
    f = s.consumed ∧ s.results[f]? = some ChunkResult.failed

/-- The full invariant: `Inv` plus the scheduling-fixpoint property (every
reachable state is observed right after a `start_downloads` pass, whose loop
only exits once its guard fails). -/
def InvS (size : Nat) (obj : Nat → Nat) (s : DLState) : Prop :=
  Inv size obj s ∧ ¬ canSubmit size s

/-- An index with a `some` lookup is within bounds. -/
theorem lookup_lt {α : Type} {l : List α} {i : Nat} {a : α}
    (h : l[i]? = some a) : i < l.length := by
  by_contra hge
  rw [List.getElem?_eq_none (by omega)] at h
  exact Option.noConfusion h

theorem submitChunk_inv {size : Nat} {obj : Nat → Nat} {s : DLState}
    (hc : canSubmit size s) (h : Inv size obj s) : Inv size obj (submitChunk size s) := by
  obtain ⟨hoff, htr, hch⟩ := hc
  have hke : s.nextOffset = min (s.submitted.length * chunk_size) size := h.off_eq
  have hklt : s.submitted.length * chunk_size < size := by
    simp only [chunk_size] at hke ⊢; omega
  have hoffk : s.nextOffset = s.submitted.length * chunk_size := by
    simp only [chunk_size] at hke ⊢; omega
  have hcl := h.consumed_le
  unfold submitChunk
  refine ⟨?_, ?_, ?_, ?_, ?_, ?_, ?_, ?_, ?_, ?_, ?_, ?_, ?_, ?_⟩ <;> dsimp only
  · rw [List.length_append, List.length_singleton, List.range_succ, List.map_append,
      ← h.sub_eq, hoffk]
    rfl
  · intro i hi
    simp only [List.length_append, List.length_singleton] at hi
    rcases Nat.lt_succ_iff_lt_or_eq.mp hi with hlt | heq
    · exact h.sub_lt i hlt
    · subst heq; exact hklt
  · rw [List.length_append, List.length_singleton, hoffk]
    simp only [chunk_size] at hklt ⊢
    omega
  · simp only [List.length_append, List.length_singleton, h.res_len]
  · simp only [List.length_append, List.length_singleton]
    omega
  · rw [List.length_append, List.length_singleton]
    have h1 : s.submitted.length + 1 - s.consumed = (s.submitted.length - s.consumed) + 1 := by
      omega
    rw [h1, List.range'_concat, ← h.chunks_eq]
    have h2 : s.consumed + 1 * (s.submitted.length - s.consumed) = s.submitted.length := by
      omega
    rw [h2]
  · intro i hi
    rcases List.mem_append.mp hi with hold | hnew
    · exact List.mem_append_left _ (h.tr_sub i hold)
    · exact List.mem_append_right _ hnew
  · refine List.Nodup.append h.tr_nodup (List.nodup_singleton _) ?_
    intro i hi hj
    have hj2 : i = s.submitted.length := List.mem_singleton.mp hj
    subst hj2
    have hm := h.tr_sub _ hi
    rw [h.chunks_eq] at hm
    have := List.mem_range'_1.mp hm
    omega
  · intro i hi
    rcases List.mem_append.mp hi with hold | hnew
    · have hp := h.tr_pending i hold
      rw [List.getElem?_append_left (lookup_lt hp)]
      exact hp
    · have hn : i = s.submitted.length := List.mem_singleton.mp hnew
      subst hn
      rw [← h.res_len, List.getElem?_concat_length]
  · intro i hi
    have hd := h.done_before i hi
    rw [List.getElem?_append_left (lookup_lt hd)]
    exact hd
  · exact h.delivered_eq
  · rw [List.length_append, List.length_singleton]
    omega
  · rw [List.length_append, List.length_singleton]
    omega
  · intro f hf
    obtain ⟨h1, h2⟩ := h.failed_inv f hf
    refine ⟨h1, ?_⟩
    rw [List.getElem?_append_left (lookup_lt h2)]
    exact h2

theorem start_fuel_inv {size : Nat} {obj : Nat → Nat} (fuel : Nat) {s : DLState}
    (h : Inv size obj s) : Inv size obj (start_downloads_fuel size fuel s) := by
  induction fuel generalizing s with
  | zero => exact h
  | succ n ih =>
    unfold start_downloads_fuel
    split
    · exact ih (submitChunk_inv ‹_› h)
    · exact h

theorem start_fuel_stop {size : Nat} (fuel : Nat) {s : DLState}
    (hge : max_chunks ≤ fuel + s.chunks.length) :
    ¬ canSubmit size (start_downloads_fuel size fuel s) := by
  induction fuel generalizing s with
  | zero =>
    intro hc
    simp only [start_downloads_fuel] at hc
    exact absurd hc.2.2 (by omega)
  | succ n ih =>
    unfold start_downloads_fuel
    split
    · apply ih
      simp only [submitChunk, List.length_append, List.length_singleton]
      omega
    · assumption

/-- The fuelled loop with fuel `max_chunks` only stops when the source
loop's guard fails: it is the `while` loop. -/
theorem start_downloads_stops_full (size : Nat) (s : DLState) :
    ¬ canSubmit size (start_downloads size s) :=
  start_fuel_stop max_chunks (by omega)

theorem start_downloads_inv {size : Nat} {obj : Nat → Nat} {s : DLState}
    (h : Inv size obj s) : InvS size obj (start_downloads size s) :=
  ⟨start_fuel_inv max_chunks h, start_downloads_stops_full size s⟩

/-- If the guard already fails, `start_downloads` submits nothing. -/
theorem start_downloads_fix {size : Nat} {s : DLState} (h : ¬ canSubmit size s) :
    start_downloads size s = s := by
  have hfuel : ∀ fuel, start_downloads_fuel size fuel s = s := by
    intro fuel
    cases fuel with
    | zero => rfl
    | succ n => simp [start_downloads_fuel, h]
  exact hfuel max_chunks

/-- Resolving an in-flight chunk's promise (to `done` or `failed`) and erasing
it from the in-flight map preserves the invariant. -/
theorem resolve_inv {size : Nat} {obj : Nat → Nat} {s : DLState}
    (i : Nat) (r : ChunkResult)
    (hi : i ∈ s.transfers) (h : Inv size obj s) :
    Inv size obj
      { s with transfers := s.transfers.erase i, results := s.results.set i r } := by
  have hip : s.results[i]? = some ChunkResult.pending := h.tr_pending i hi
  refine ⟨?_, ?_, ?_, ?_, ?_, ?_, ?_, ?_, ?_, ?_, ?_, ?_, ?_, ?_⟩ <;> dsimp only
  · exact h.sub_eq
  · exact h.sub_lt
  · exact h.off_eq
  · rw [List.length_set]; exact h.res_len
  · exact h.consumed_le
  · exact h.chunks_eq
  · intro j hj
    exact h.tr_sub j (List.erase_subset _ _ hj)
  · exact h.tr_nodup.erase i
  · intro j hj
    obtain ⟨hne, hmem⟩ := (h.tr_nodup.mem_erase_iff).mp hj
    rw [List.getElem?_set_ne (Ne.symm hne)]
    exact h.tr_pending j hmem
  · intro j hj
    have hd := h.done_before j hj
    have hne : i ≠ j := by
      intro he
      subst he
      rw [hip] at hd
      exact absurd (Option.some.inj hd) (by intro hc; exact ChunkResult.noConfusion hc)
    rw [List.getElem?_set_ne hne]
    exact hd
  · exact h.delivered_eq
  · exact le_trans (List.erase_sublist i s.transfers).length_le h.bound_tr
  · exact h.bound_ch
  · intro f hf
    obtain ⟨h1, h2⟩ := h.failed_inv f hf
    have hne : i ≠ f := by
      intro he
      subst he
      rw [hip] at h2
      exact absurd (Option.some.inj h2) (by intro hc; exact ChunkResult.noConfusion hc)
    refine ⟨h1, ?_⟩
    rw [List.getElem?_set_ne hne]
    exact h2

/-- Facts the head of the pending deque satisfies. -/
theorem head_facts {size : Nat} {obj : Nat → Nat} {s : DLState} {f : Nat}
    (h : Inv size obj s) (hh : s.chunks.head? = some f) :
    f = s.consumed ∧ s.consumed < s.submitted.length := by
  have hc := h.chunks_eq
  rcases hn : s.submitted.length - s.consumed with _ | m
  · rw [hn, List.range'_zero] at hc
    rw [hc] at hh
    exact absurd hh (by simp)
  · rw [hn, List.range'_succ] at hc
    rw [hc] at hh
    simp only [List.head?_cons, Option.some.injEq] at hh
    have := h.consumed_le
    omega

/-- The request of the `f`-th submitted chunk, as the source reads it back
out of the `transfers` map entry. -/
theorem submitted_getD {size : Nat} {obj : Nat → Nat} {s : DLState} {f : Nat}
    (h : Inv size obj s) (hf : f < s.submitted.length) :
    s.submitted.getD f ⟨0, 0⟩ = reqOf f := by
  rw [List.getD_eq_getElem?_getD, h.sub_eq, List.getElem?_map,
    List.getElem?_range (by simpa using hf)]
  rfl

/-- Consuming the (fulfilled) head of the deque preserves the invariant. -/
theorem consume_inv {size : Nat} {obj : Nat → Nat} {s : DLState} {f : Nat}
    (hfa : s.failedAt = none)
    (hh : s.chunks.head? = some f) (hres : s.results[f]? = some ChunkResult.done)
    (h : Inv size obj s) :
    Inv size obj
      { s with
        chunks := s.chunks.tail
        consumed := s.consumed + 1
        delivered := s.delivered ++ [chunkData obj size (s.submitted.getD f ⟨0, 0⟩)] } := by
  obtain ⟨hfc, hck⟩ := head_facts h hh
  subst hfc
  have hm : s.submitted.length - s.consumed = (s.submitted.length - (s.consumed + 1)) + 1 := by
    omega
  have hchunks :
      s.chunks = s.consumed :: List.range' (s.consumed + 1) (s.submitted.length - (s.consumed + 1)) := by
    rw [h.chunks_eq, hm, List.range'_succ]
  refine ⟨?_, ?_, ?_, ?_, ?_, ?_, ?_, ?_, ?_, ?_, ?_, ?_, ?_, ?_⟩ <;> dsimp only
  · exact h.sub_eq
  · exact h.sub_lt
  · exact h.off_eq
  · exact h.res_len
  · omega
  · rw [hchunks]
    rfl
  · intro j hj
    have hjc := h.tr_sub j hj
    have hjp := h.tr_pending j hj
    have hne : j ≠ s.consumed := by
      intro he
      subst he
      rw [hres] at hjp
      exact absurd (Option.some.inj hjp) (by intro hc; exact ChunkResult.noConfusion hc)
    rw [hchunks] at hjc
    rw [hchunks]
    rcases List.mem_cons.mp hjc with he | ht
    · exact absurd he hne
    · exact ht
  · exact h.tr_nodup
  · exact h.tr_pending
  · intro j hj
    rcases Nat.lt_succ_iff_lt_or_eq.mp hj with hlt | heq
    · exact h.done_before j hlt
    · subst heq; exact hres
  · rw [submitted_getD h hck, h.delivered_eq, List.range_succ, List.map_append]
    rfl
  · exact h.bound_tr
  · exact le_trans (List.tail_sublist s.chunks).length_le h.bound_ch
  · intro g hg
    rw [hfa] at hg
    exact Option.noConfusion hg

theorem step_invS {size : Nat} {obj : Nat → Nat} {s t : DLState}
    (h : InvS size obj s) (hs : Step size obj s t) : InvS size obj t := by
  cases hs with
  | netProgress => exact start_downloads_inv h.1
  | netComplete i hi =>
    unfold doNetComplete
    exact start_downloads_inv
      (resolve_inv i ChunkResult.done hi h.1)
  | netFail i hi =>
    unfold doNetFail
    exact start_downloads_inv
      (resolve_inv i ChunkResult.failed hi h.1)
  | consumeOk f hfa hh hres =>
    unfold doConsume
    exact start_downloads_inv (consume_inv hfa hh hres h.1)
  | consumeFail f hfa hh hres =>
    obtain ⟨hfc, hck⟩ := head_facts h.1 hh
    refine ⟨⟨h.1.sub_eq, h.1.sub_lt, h.1.off_eq, h.1.res_len, h.1.consumed_le,
      h.1.chunks_eq, h.1.tr_sub, h.1.tr_nodup, h.1.tr_pending, h.1.done_before,
      h.1.delivered_eq, h.1.bound_tr, h.1.bound_ch, ?_⟩, h.2⟩
    intro g hg
    have hgf : f = g := by
      simpa [doFail] using hg
    subst hgf
    exact ⟨hfc, hres⟩

theorem init_inv {size : Nat} {obj : Nat → Nat} : Inv size obj initState := by
  refine ⟨?_, ?_, ?_, ?_, ?_, ?_, ?_, ?_, ?_, ?_, ?_, ?_, ?_, ?_⟩ <;>
    simp [initState, max_transfers, max_chunks]

/-- Every reachable state of the downloader satisfies the invariant, and is a
fixpoint of the scheduling guard. -/
theorem reach_inv {size : Nat} {obj : Nat → Nat} {s : DLState}
    (h : Reach size obj s) : InvS size obj s := by
  induction h with
  | init => exact start_downloads_inv init_inv
  | step _ hs ih => exact step_invS ih hs

/-! ## The partition delivered to the sink -/

/-- The number of `chunk_size` windows covering `[0, size)`. -/
def numChunks (size : Nat) : Nat := (size + chunk_size - 1) / chunk_size

theorem range'_append_simple (a b c : Nat) :
    List.range' a b ++ List.range' (a + b) c = List.range' a (b + c) := by
  have h := List.range'_append a b c 1
  rw [one_mul] at h
  rw [Nat.add_comm c b] at h
  exact h

theorem chunkData_length (obj : Nat → Nat) (size : Nat) (r : Request) :
    (chunkData obj size r).length = min r.reqLen (size - r.offset) := by
  unfold chunkData
  rw [List.length_map, List.length_range']

/-- Concatenating the data of the first `m` chunks, in submission order,
yields the object's bytes up to offset `min (m * chunk_size) size`. -/
theorem delivered_flatten (obj : Nat → Nat) (size : Nat) (m : Nat)
    (hm : ∀ j < m, j * chunk_size < size) :
    ((List.range m).map (fun j => chunkData obj size (reqOf j))).flatten
      = (List.range' 0 (min (m * chunk_size) size)).map obj := by
  induction m with
  | zero => simp
  | succ n ih =>
    rw [List.range_succ, List.map_append, List.flatten_append,
      ih (fun j hj => hm j (Nat.lt_succ_of_lt hj))]
    have hn : n * chunk_size < size := hm n (Nat.lt_succ_self n)
    have h1 : min (n * chunk_size) size = n * chunk_size := by omega
    rw [h1]
    simp only [List.map_cons, List.map_nil, List.flatten_cons, List.flatten_nil,
      List.append_nil]
    unfold chunkData reqOf
    dsimp only
    rw [← List.map_append]
    have e := range'_append_simple 0 (n * chunk_size) (min chunk_size (size - n * chunk_size))
    rw [Nat.zero_add] at e
    rw [e]
    have harr : n * chunk_size + min chunk_size (size - n * chunk_size)
        = min ((n + 1) * chunk_size) size := by
      simp only [chunk_size] at hn ⊢
      omega
    rw [harr]

/-- When the consumer loop has exited (`chunks` empty): everything submitted
has been consumed, the cursor has covered the whole object, and the fetch
did not abort. -/
theorem terminal_facts {size : Nat} {obj : Nat → Nat} {s : DLState}
    (h : Reach size obj s) (hdone : s.chunks = []) :
    s.consumed = s.submitted.length
  ∧ size ≤ s.submitted.length * chunk_size
  ∧ s.failedAt = none := by
  obtain ⟨hi, hsched⟩ := reach_inv h
  have h1 : s.submitted.length - s.consumed = 0 := by
    by_contra hne
    have h2 : s.submitted.length - s.consumed = (s.submitted.length - s.consumed - 1) + 1 := by
      omega
    have h3 := hi.chunks_eq
    rw [h2, List.range'_succ] at h3
    rw [hdone] at h3
    exact List.noConfusion h3
  have hcons : s.consumed = s.submitted.length := by
    have := hi.consumed_le
    omega
  have htr : s.transfers = [] := by
    cases htr : s.transfers with
    | nil => rfl
    | cons a l =>
      have hmem := hi.tr_sub a (by rw [htr]; exact List.mem_cons_self a l)
      rw [hdone] at hmem
      exact absurd hmem (List.not_mem_nil a)
  have hsize : size ≤ s.submitted.length * chunk_size := by
    by_contra hlt
    push_neg at hlt
    apply hsched
    refine ⟨?_, ?_, ?_⟩
    · have := hi.off_eq
      omega
    · rw [htr]
      simp [max_transfers]
    · rw [hdone]
      simp [max_chunks]
  have hfa : s.failedAt = none := by
    cases hfa : s.failedAt with
    | none => rfl
    | some f =>
      obtain ⟨h1f, h2f⟩ := hi.failed_inv f hfa
      have hflen := lookup_lt h2f
      rw [hi.res_len] at hflen
      omega
  exact ⟨hcons, hsize, hfa⟩

/-- At the end of a successful fetch, the number of submitted requests is
exactly the number of `chunk_size` windows covering the object. -/
theorem terminal_numChunks {size : Nat} {obj : Nat → Nat} {s : DLState}
    (h : Reach size obj s) (hdone : s.chunks = []) :
    s.submitted.length = numChunks size := by
  obtain ⟨hcons, hsize, hfa⟩ := terminal_facts h hdone
  obtain ⟨hi, hsched⟩ := reach_inv h
  rcases Nat.eq_zero_or_pos s.submitted.length with h0 | hp
  · rw [h0] at hsize ⊢
    simp only [numChunks, chunk_size] at *
    omega
  · have hlast := hi.sub_lt (s.submitted.length - 1) (by omega)
    simp only [numChunks, chunk_size] at *
    omega

/-- A scheduling pass never changes an already-resolved promise: it only
appends fresh pending ones. -/
theorem start_downloads_results_lookup (size : Nat) (x : DLState) (i : Nat)
    (r : ChunkResult) (h : x.results[i]? = some r) :
    (start_downloads size x).results[i]? = some r := by
  unfold start_downloads
  generalize max_chunks = fuel
  induction fuel generalizing x with
  | zero => exact h
  | succ n ih =>
    unfold start_downloads_fuel
    split
    · apply ih
      show (x.results ++ [ChunkResult.pending])[i]? = some r
      rw [List.getElem?_append_left (lookup_lt h)]
      exact h
    · exact h

/-! ## Claim theorems for the chunked downloader -/

/-- Under the *intended* completion semantics (`Reach`, promise fulfilled
on `COMPLETED`): for every object of size `N`, exactly `N` bytes are
delivered to the sink, in strictly ascending offset order (submission
order - the consumer always waits on the oldest unconsumed handle,
regardless of network completion order), and the deliveries partition the
object into chunks of at most `chunk_size` bytes each, every chunk before
the last being exactly `chunk_size` bytes.  This is the spec's Chunked
Downloader contract; the program as written never reaches these terminal
states for `N > 0` (see `completed_chunk_throws_no_delivery`). -/
theorem chunked_fetch_delivers_exactly (size : Nat) (obj : Nat → Nat) (s : DLState)
    (h : Reach size obj s) (hdone : s.chunks = []) :
    s.delivered.flatten = (List.range' 0 size).map obj
  ∧ s.delivered.flatten.length = size
  ∧ s.delivered = (List.range (numChunks size)).map (fun j => chunkData obj size (reqOf j))
  ∧ (∀ d ∈ s.delivered, d.length ≤ chunk_size)
  ∧ (∀ j, j + 1 < numChunks size → s.delivered[j]?.map List.length = some chunk_size)
  ∧ s.failedAt = none := by
  obtain ⟨hcons, hsize, hfa⟩ := terminal_facts h hdone
  have hnum := terminal_numChunks h hdone
  obtain ⟨hi, hsched⟩ := reach_inv h
  have hdel : s.delivered
      = (List.range (numChunks size)).map (fun j => chunkData obj size (reqOf j)) := by
    rw [hi.delivered_eq, hcons, hnum]
  have hflat : s.delivered.flatten = (List.range' 0 size).map obj := by
    rw [hi.delivered_eq, delivered_flatten obj size s.consumed
      (fun j hj => hi.sub_lt j (by omega))]
    have hmin : min (s.consumed * chunk_size) size = size := by
      rw [hcons]
      omega
    rw [hmin]
  refine ⟨hflat, ?_, hdel, ?_, ?_, hfa⟩
  · rw [hflat, List.length_map, List.length_range']
  · intro d hd
    rw [hdel] at hd
    obtain ⟨j, hj, rfl⟩ := List.mem_map.mp hd
    rw [chunkData_length]
    exact le_trans (Nat.min_le_left _ _) (by rfl)
  · intro j hj
    have hjlt : j < numChunks size := by omega
    have hjget : s.delivered[j]? = some (chunkData obj size (reqOf j)) := by
      rw [hdel, List.getElem?_map, List.getElem?_range hjlt]
      rfl
    rw [hjget]
    have hnext : (j + 1) * chunk_size < size := by
      rw [← hnum] at hj
      exact hi.sub_lt (j + 1) hj
    show some ((chunkData obj size (reqOf j)).length) = some chunk_size
    rw [chunkData_length]
    congr 1
    show min ((reqOf j).reqLen) (size - (reqOf j).offset) = chunk_size
    unfold reqOf
    dsimp only
    simp only [chunk_size] at hnext ⊢
    omega

/-- **C2**: if some chunk's transfer completed with a non-success status
(`results[i] = failed`), the consumer never advances past that chunk: at
every reachable state the bytes delivered to the sink are exactly the object
bytes below `min (consumed * chunk_size) size ≤ i * chunk_size` - i.e. no
byte at or after the failed chunk's offset is ever delivered - and the
consumer's wait on that chunk's handle (if it has happened, `failedAt`) has
re-raised the failure, aborting the fetch.  Moreover every submitted request
has a strictly larger offset than all earlier ones, so no range (and in
particular not the failed one) is ever requested twice - the downloader
performs no per-chunk retry - and the failure is permanent: after any
further step the chunk's promise still holds the failure. -/
theorem chunk_failure_aborts_fetch (size : Nat) (obj : Nat → Nat) (s : DLState) (i : Nat)
    (h : Reach size obj s) (hf : s.results[i]? = some ChunkResult.failed) :
    s.consumed ≤ i
  ∧ s.delivered.flatten = (List.range' 0 (min (s.consumed * chunk_size) size)).map obj
  ∧ min (s.consumed * chunk_size) size ≤ i * chunk_size
  ∧ (s.submitted.map Request.offset).Pairwise (· < ·)
  ∧ (∀ f, s.failedAt = some f →
      s.results[f]? = some ChunkResult.failed ∧ s.consumed = f)
  ∧ (∀ t : DLState, Step size obj s t → t.results[i]? = some ChunkResult.failed) := by
  obtain ⟨hi, hsched⟩ := reach_inv h
  have hile : s.consumed ≤ i := by
    by_contra hgt
    push_neg at hgt
    have := hi.done_before i hgt
    rw [hf] at this
    exact absurd (Option.some.inj this) (by intro hc; exact ChunkResult.noConfusion hc)
  have hflat : s.delivered.flatten
      = (List.range' 0 (min (s.consumed * chunk_size) size)).map obj := by
    rw [hi.delivered_eq, delivered_flatten obj size s.consumed
      (fun j hj => hi.sub_lt j (by have := hi.consumed_le; omega))]
  have hmono : min (s.consumed * chunk_size) size ≤ i * chunk_size :=
    le_trans (Nat.min_le_left _ _) (Nat.mul_le_mul_right _ hile)
  have hpair : (s.submitted.map Request.offset).Pairwise (· < ·) := by
    rw [hi.sub_eq, List.map_map]
    refine List.Pairwise.map _ ?_ (List.pairwise_lt_range _)
    intro a b hab
    show (reqOf a).offset < (reqOf b).offset
    unfold reqOf
    dsimp only
    simp only [chunk_size]
    omega
  refine ⟨hile, hflat, hmono, hpair, ?_, ?_⟩
  · intro f hfa
    obtain ⟨h1, h2⟩ := hi.failed_inv f hfa
    exact ⟨h2, h1.symm⟩
  · intro t hs
    cases hs with
    | netProgress =>
      exact start_downloads_results_lookup _ _ _ _ hf
    | netComplete j hj =>
      unfold doNetComplete
      apply start_downloads_results_lookup
      dsimp only
      have hjp := hi.tr_pending j hj
      have hne : j ≠ i := by
        intro he
        rw [he, hf] at hjp
        exact absurd (Option.some.inj hjp) (by intro hc; exact ChunkResult.noConfusion hc)
      rw [List.getElem?_set_ne hne]
      exact hf
    | netFail j hj =>
      unfold doNetFail
      apply start_downloads_results_lookup
      dsimp only
      rcases eq_or_ne j i with rfl | hne
      · exact List.getElem?_set_self (lookup_lt hf)
      · rw [List.getElem?_set_ne hne]
        exact hf
    | consumeOk f hfa hh hres =>
      unfold doConsume
      apply start_downloads_results_lookup
      exact hf
    | consumeFail f hfa hh hres =>
      exact hf

/-- **C3**: at every reachable state the number of in-flight transfers is at
most `max_transfers` (3) and the pending deque holds at most `max_chunks`
(5) chunks (hence at most 5 buffered-but-undelivered chunks); at every
reachable state the scheduler is a fixpoint (some bound, or the cursor,
blocks it - new range requests are opened only while all three guard
conditions hold, as the fourth conjunct states for arbitrary states); the
submitted offsets are strictly increasing, and each submission strictly
advances the cursor. -/
theorem window_bounds (size : Nat) (obj : Nat → Nat) (s : DLState)
    (h : Reach size obj s) :
    s.transfers.length ≤ max_transfers
  ∧ s.chunks.length ≤ max_chunks
  ∧ start_downloads size s = s
  ∧ (∀ t : DLState, t.submitted.length < (start_downloads size t).submitted.length →
      t.nextOffset < size ∧ t.transfers.length < max_transfers
        ∧ t.chunks.length < max_chunks)
  ∧ (s.submitted.map Request.offset).Pairwise (· < ·)
  ∧ (∀ t : DLState, canSubmit size t → t.nextOffset < (submitChunk size t).nextOffset) := by
  obtain ⟨hi, hsched⟩ := reach_inv h
  refine ⟨hi.bound_tr, hi.bound_ch, start_downloads_fix hsched, ?_, ?_, ?_⟩
  · intro t hlen
    by_contra hno
    rw [start_downloads_fix (fun hc => hno hc)] at hlen
    omega
  · rw [hi.sub_eq, List.map_map]
    refine List.Pairwise.map _ ?_ (List.pairwise_lt_range _)
    intro a b hab
    show (reqOf a).offset < (reqOf b).offset
    unfold reqOf
    dsimp only
    simp only [chunk_size]
    omega
  · intro t hc
    unfold submitChunk
    dsimp only
    have h1 := hc.1
    simp only [chunk_size]
    omega

/-- **C8 (amended)**: every range request passes exactly `chunk_size` as the
requested length - including the final one, for which the source computes
`download_size = size - cursor` but passes the constant `chunk_size` to
`DownloadFile` (line 276); the offset of every request lies inside the
object, the bytes a request actually yields are
`min chunk_size (size - offset)` (the transport clamps the range at the end
of the object), never more than `chunk_size`, and for the final chunk
(the one whose window reaches the end) exactly `size - offset`. -/
theorem request_lengths (size : Nat) (obj : Nat → Nat) (s : DLState)
    (h : Reach size obj s) :
    ∀ r ∈ s.submitted,
      r.reqLen = chunk_size
    ∧ r.offset < size
    ∧ (chunkData obj size r).length = min chunk_size (size - r.offset)
    ∧ (chunkData obj size r).length ≤ chunk_size
    ∧ (size ≤ r.offset + chunk_size → (chunkData obj size r).length = size - r.offset) := by
  obtain ⟨hi, hsched⟩ := reach_inv h
  intro r hr
  rw [hi.sub_eq] at hr
  obtain ⟨j, hj, rfl⟩ := List.mem_map.mp hr
  have hjlt : j < s.submitted.length := List.mem_range.mp hj
  have hoff : (reqOf j).offset < size := hi.sub_lt j hjlt
  refine ⟨rfl, hoff, ?_, ?_, ?_⟩
  · rw [chunkData_length]
    rfl
  · rw [chunkData_length]
    exact Nat.min_le_left _ _
  · intro hle
    rw [chunkData_length]
    show min ((reqOf j).reqLen) (size - (reqOf j).offset) = size - (reqOf j).offset
    have : (reqOf j).reqLen = chunk_size := rfl
    rw [this]
    omega

/-- **C8 (as stated) is false**: the claim says the length requested from
the transport for the final chunk equals `size - cursor`; but for an object
of size 10 the single (final) range request passes `chunk_size` (33554432)
as the requested length, not `10 - 0 = 10` - the `min` only advances the
cursor (line 275), it is not what is passed to `DownloadFile` (line 276). -/
theorem final_request_length_counterexample :
    Reach 10 (fun i => i) (startState 10)
  ∧ (startState 10).submitted = [⟨0, chunk_size⟩]
  ∧ ((10 : Nat) - 0 ≠ chunk_size) :=
  ⟨Reach.init, by decide, by decide⟩

/-- **C10**: for an object whose size probe reports 0, the downloader
submits zero range requests, delivers zero bytes to the sink, terminates at
once (the deque is empty so the consumer loop never runs), does not fail,
and the returned `FileTransferResult` reports `data_size = 0`. -/
theorem zero_size_fetch (obj : Nat → Nat) (s : DLState) (dur : Nat)
    (h : Reach 0 obj s) :
    s = startState 0
  ∧ s.submitted = []
  ∧ s.delivered = []
  ∧ s.chunks = []
  ∧ s.failedAt = none
  ∧ (getObject_sink_result 0 dur).data_size = some 0 := by
  have hzero : ∀ t : DLState, ¬ canSubmit 0 t := by
    intro t ht
    exact absurd ht.1 (by omega)
  have hstart : startState 0 = initState := start_downloads_fix (hzero _)
  have hmain : s = startState 0 := by
    induction h with
    | init => rfl
    | step hr hs ih =>
      subst ih
      cases hs with
      | netProgress => exact start_downloads_fix (hzero _)
      | netComplete i hi =>
        rw [hstart] at hi
        exact absurd hi (by simp [initState])
      | netFail i hi =>
        rw [hstart] at hi
        exact absurd hi (by simp [initState])
      | consumeOk f hfa hh hres =>
        rw [hstart] at hh
        exact absurd hh (by simp [initState])
      | consumeFail f hfa hh hres =>
        rw [hstart] at hh
        exact absurd hh (by simp [initState])
  subst hmain
  rw [hstart]
  exact ⟨hstart.symm ▸ rfl, rfl, rfl, rfl, rfl, rfl⟩

/-- **C4**: even when the chunked transfer succeeds and every byte has been
delivered to the sink (a reachable terminal state with nothing pending), the
`FileTransferResult` the sink-based `getObject` returns carries no `data`
(only `data_size` is assigned, lines 334-339), and `getFile` - which decides
existence by `if (res.data)` - therefore throws `NoSuchBinaryCacheFile`. -/
theorem getFile_sink_always_noSuchFile (size dur : Nat) (obj : Nat → Nat) (s : DLState)
    (h : Reach size obj s) (hdone : s.chunks = []) :
    (getObject_sink_result size dur).data = none
  ∧ (getObject_sink_result size dur).data_size = some size
  ∧ getFile (getObject_sink_result size dur) = GetFileResult.noSuchFile :=
  ⟨rfl, rfl, rfl⟩

/-! ## Claim theorems for enumeration, validity, upload -/

/-- **C5 (as stated) is false**: the claim says a key qualifies iff its
length is 40 characters *plus* the `".narinfo"` suffix (i.e. 48); but the
source (line 611) requires the *total* length to be exactly 40.  A
48-character key consisting of 40 hash characters followed by `".narinfo"`
is skipped by the code, although the claim says it qualifies. -/
theorem qualifying_length_counterexample :
    keyQualifies (List.replicate 40 'a' ++ narinfoSuffix) = false
  ∧ (List.replicate 40 'a' ++ narinfoSuffix).length = 40 + narinfoSuffix.length
  ∧ hasSuffix (List.replicate 40 'a' ++ narinfoSuffix) narinfoSuffix = true :=
  ⟨by decide, by decide, by decide⟩

/-- **C5 (amended)**: a key qualifies iff its *total* length is exactly 40
characters and it carries the `".narinfo"` suffix - so the hash component is
32 characters, not 40; a qualifying key is decoded by stripping the
8-character suffix and recombining the remaining 32-character hash with the
store's path-namespace prefix (and the placeholder name); every other key in
the page is skipped. -/
theorem qualifying_keys (key storeDir missingName : Str) :
    (keyQualifies key = true ↔ key.length = 40 ∧ hasSuffix key narinfoSuffix = true)
  ∧ (keyQualifies key = true → (key.take (key.length - 8)).length = 32)
  ∧ (keyQualifies key = true →
      queryAllValidPathsPage storeDir missingName [key]
        = [storeDir ++ ('/' :: (key.take 32 ++ ('-' :: missingName)))])
  ∧ (keyQualifies key = false → queryAllValidPathsPage storeDir missingName [key] = []) := by
  have hiff : keyQualifies key = true ↔ key.length = 40 ∧ hasSuffix key narinfoSuffix = true := by
    unfold keyQualifies keySkipped
    constructor
    · intro h
      simp only [Bool.not_eq_true', Bool.or_eq_false_iff, bne_eq_false_iff_eq,
        Bool.not_eq_false, Bool.not_eq_true] at h
      exact ⟨h.1, by simpa using h.2⟩
    · intro h
      simp only [Bool.not_eq_true', Bool.or_eq_false_iff, bne_eq_false_iff_eq,
        Bool.not_eq_false, Bool.not_eq_true]
      exact ⟨h.1, by simpa using h.2⟩
  refine ⟨hiff, ?_, ?_, ?_⟩
  · intro hq
    obtain ⟨hlen, _⟩ := hiff.mp hq
    rw [List.length_take, hlen]
    rfl
  · intro hq
    obtain ⟨hlen, _⟩ := hiff.mp hq
    unfold queryAllValidPathsPage
    rw [List.filter_cons_of_pos hq, List.filter_nil, List.map_cons, List.map_nil]
    unfold decodeKey
    rw [hlen]
  · intro hq
    unfold queryAllValidPathsPage
    rw [List.filter_cons_of_neg (by rw [hq]; exact Bool.false_ne_true), List.filter_nil,
      List.map_nil]

/-- **C6**: `fileExists` returns false exactly when the HEAD probe fails
with a not-found (`RESOURCE_NOT_FOUND` or `NO_SUCH_KEY`) or `ACCESS_DENIED`
classification; on success it returns true; any other failure
classification is raised as a hard error to the caller. -/
theorem fileExists_classification (res : HeadObjectOutcome) :
    (fileExists res = .returns false ↔
      ∃ msg, res = .error .RESOURCE_NOT_FOUND msg ∨ res = .error .NO_SUCH_KEY msg
           ∨ res = .error .ACCESS_DENIED msg)
  ∧ (res = .success → fileExists res = .returns true)
  ∧ (∀ e msg, res = .error e msg →
      e ≠ .RESOURCE_NOT_FOUND → e ≠ .NO_SUCH_KEY → e ≠ .ACCESS_DENIED →
      fileExists res = .throws msg) := by
  refine ⟨?_, ?_, ?_⟩
  · constructor
    · intro h
      cases res with
      | success => exact absurd h (by simp [fileExists])
      | error e msg =>
        refine ⟨msg, ?_⟩
        cases e with
        | RESOURCE_NOT_FOUND => exact Or.inl rfl
        | NO_SUCH_KEY => exact Or.inr (Or.inl rfl)
        | ACCESS_DENIED => exact Or.inr (Or.inr rfl)
        | other code => exact absurd h (by simp [fileExists])
    · rintro ⟨msg, h | h | h⟩ <;> subst h <;> simp [fileExists]
  · rintro rfl
    rfl
  · rintro e msg rfl h1 h2 h3
    simp [fileExists, h1, h2, h3]

/-- **C7**: with multi-part upload enabled and a non-empty content-encoding,
`uploadFile` throws the configuration error immediately - before any network
transfer is attempted (the action trace is empty). -/
theorem multipart_content_encoding_conflict (contentEncoding : Str)
    (status : TransferStatus) (lastError : Str) (putResult : Option Str)
    (h : contentEncoding ≠ []) :
    uploadFile true contentEncoding status lastError putResult
      = ([], UploadOutcome.errorContentEncodingWithMultipart) := by
  simp [uploadFile, h]

/-- **C9**: a multi-part upload reaching a terminal state is classified
three ways: `COMPLETED` is success; `FAILED` raises a hard error carrying
the engine's last error message; any other terminal status raises the hard
unexpected-state error. -/
theorem multipart_terminal_outcomes (lastError : Str) (putResult : Option Str) :
    uploadFile true [] TransferStatus.COMPLETED lastError putResult
        = ([NetAction.multipartUploadStart], UploadOutcome.ok)
  ∧ uploadFile true [] TransferStatus.FAILED lastError putResult
        = ([NetAction.multipartUploadStart], UploadOutcome.errorTransferFailed lastError)
  ∧ (∀ status : TransferStatus, status ≠ TransferStatus.COMPLETED →
      status ≠ TransferStatus.FAILED →
      uploadFile true [] status lastError putResult
        = ([NetAction.multipartUploadStart], UploadOutcome.errorUnexpectedState)) := by
  refine ⟨by simp [uploadFile], by simp [uploadFile], ?_⟩
  intro status h1 h2
  simp [uploadFile, h1, h2]

/-! ## Concrete runs and witnesses -/

/-- A concrete object: byte `i % 256` at offset `i`. -/
def objW : Nat → Nat := fun i => i % 256

/-- A two-chunk object: one full window plus one byte. -/
def wsize : Nat := chunk_size + 1

/-- Concrete run on `wsize`: the *second* chunk's transfer completes first,
then the first's; the consumer still drains them in submission order. -/
def w1 : DLState := doNetComplete wsize (startState wsize) 1

def w2 : DLState := doNetComplete wsize w1 0

def w3 : DLState := doConsume wsize objW w2 0

def w4 : DLState := doConsume wsize objW w3 1

theorem reach_w4 : Reach wsize objW w4 :=
  Reach.step
    (Reach.step
      (Reach.step
        (Reach.step Reach.init (Step.netComplete _ 1 (by decide)))
        (Step.netComplete _ 0 (by decide)))
      (Step.consumeOk _ 0 (by decide) (by decide) (by decide)))
    (Step.consumeOk _ 1 (by decide) (by decide) (by decide))

theorem chunked_fetch_delivers_exactly_witness :
    w4.chunks = [] ∧ w4.failedAt = none ∧ w4.delivered.flatten.length = wsize :=
  ⟨by decide,
    (chunked_fetch_delivers_exactly wsize objW w4 reach_w4 (by decide)).2.2.2.2.2,
    (chunked_fetch_delivers_exactly wsize objW w4 reach_w4 (by decide)).2.1⟩

/-- Concrete failing run on a one-chunk object of size 5: the transfer
fails, the consumer re-raises. -/
def f1 : DLState := doNetFail 5 (startState 5) 0

def f2 : DLState := doFail f1 0

theorem reach_f2 : Reach 5 objW f2 :=
  Reach.step (Reach.step Reach.init (Step.netFail _ 0 (by decide)))
    (Step.consumeFail _ 0 (by decide) (by decide) (by decide))

theorem chunk_failure_aborts_fetch_witness :
    f2.results[0]? = some ChunkResult.failed ∧ f2.consumed ≤ 0 ∧ f2.failedAt = some 0 :=
  ⟨by decide, (chunk_failure_aborts_fetch 5 objW f2 0 reach_f2 (by decide)).1, by decide⟩

theorem window_bounds_witness :
    (startState 5).transfers.length ≤ max_transfers
  ∧ (startState 5).chunks.length ≤ max_chunks :=
  ⟨(window_bounds 5 objW (startState 5) Reach.init).1,
   (window_bounds 5 objW (startState 5) Reach.init).2.1⟩

theorem getFile_sink_always_noSuchFile_witness :
    getFile (getObject_sink_result 0 7) = GetFileResult.noSuchFile :=
  (getFile_sink_always_noSuchFile 0 7 objW (startState 0) Reach.init (by decide)).2.2

/-- A qualifying key: 32 hash characters followed by `".narinfo"`. -/
def wkey : Str := List.replicate 32 'x' ++ narinfoSuffix

def sdW : Str := "/nix/store".toList

def mnW : Str := "x".toList

theorem qualifying_keys_witness :
    keyQualifies wkey = true
  ∧ queryAllValidPathsPage sdW mnW [wkey]
      = [sdW ++ ('/' :: (wkey.take 32 ++ ('-' :: mnW)))] :=
  ⟨by decide, (qualifying_keys wkey sdW mnW).2.2.1 (by decide)⟩

theorem fileExists_classification_witness :
    fileExists (HeadObjectOutcome.error S3Errors.ACCESS_DENIED [])
      = FileExistsResult.returns false :=
  (fileExists_classification (HeadObjectOutcome.error S3Errors.ACCESS_DENIED [])).1.mpr
    ⟨[], Or.inr (Or.inr rfl)⟩

def ceW : Str := "gzip".toList

theorem multipart_content_encoding_conflict_witness :
    uploadFile true ceW TransferStatus.COMPLETED [] none
      = ([], UploadOutcome.errorContentEncodingWithMultipart) :=
  multipart_content_encoding_conflict ceW TransferStatus.COMPLETED [] none (by decide)

theorem request_lengths_witness :
    ((⟨0, chunk_size⟩ : Request) ∈ (startState 10).submitted)
  ∧ (chunkData objW 10 ⟨0, chunk_size⟩).length = 10 - 0 :=
  ⟨by decide,
    (request_lengths 10 objW (startState 10) Reach.init ⟨0, chunk_size⟩ (by decide)).2.2.2.2
      (by decide)⟩

theorem multipart_terminal_outcomes_witness :
    uploadFile true [] TransferStatus.CANCELED [] none
      = ([NetAction.multipartUploadStart], UploadOutcome.errorUnexpectedState) :=
  (multipart_terminal_outcomes [] none).2.2 TransferStatus.CANCELED (by decide) (by decide)

theorem zero_size_fetch_witness :
    (startState 0).submitted = [] ∧ (startState 0).delivered = [] :=
  ⟨(zero_size_fetch objW (startState 0) 3 Reach.init).2.1,
   (zero_size_fetch objW (startState 0) 3 Reach.init).2.2.1⟩

/-! ## The `COMPLETED` arm as actually executed (C1)

`Chunk` inherits `std::enable_shared_from_this<Chunk>` and `Chunk::complete`
(lines 99-103) runs `promise.set_value(shared_from_this())`.  But a `Chunk`
is only ever owned by `std::unique_ptr`: `std::make_unique<Chunk>()` at line
274, moved into `std::map<const TransferHandle*, std::unique_ptr<Chunk>>`
(line 224); no `shared_ptr` to a `Chunk` is ever created.  `shared_from_this`
on an object no `shared_ptr` owns finds an empty internal weak reference and
throws `std::bad_weak_ptr` - evaluated *before* `set_value`, so the promise
is never fulfilled with a value.  The exception escapes the `COMPLETED` arm
(the `try`/`catch` at lines 255-263 wraps only the `default:` arm), skipping
the `erase` and the `start_downloads()` call after the switch, and leaves
the callback on the transport's worker thread; the downloader state is
unchanged and the consumer's wait on the pending future can never return a
value. -/

/-- Whether some `shared_ptr` owns the object at the moment
`shared_from_this()` runs - what decides between returning a pointer and
throwing `std::bad_weak_ptr`. -/
inductive ChunkOwnership where
  | uniquePtrOnly
  | sharedPtr
  deriving DecidableEq, Repr

/-- How this program owns its chunks: `std::make_unique<Chunk>()` (line 274)
moved into the map of `std::unique_ptr<Chunk>` (line 224); no `shared_ptr`
ever owns a `Chunk`. -/
def chunkOwnership : ChunkOwnership := .uniquePtrOnly

/-- The C++ exception that escapes `Chunk::complete`. -/
inductive CxxException where
  | badWeakPtr
  deriving DecidableEq, Repr

/-- `Chunk::complete` (lines 99-103): `shared_from_this()` throws
`std::bad_weak_ptr` when no `shared_ptr` owns the chunk; only when one does
is `promise.set_value` reached. -/
def Chunk_complete (own : ChunkOwnership) : Except CxxException Unit :=
  match own with
  | .uniquePtrOnly => .error .badWeakPtr
  | .sharedPtr => .ok ()

/-- The `COMPLETED` arm of `downloadProgressCallback` as the program
actually executes it: `transfers[handle.get()]->complete()` runs first; when
it throws, the `erase` and the `start_downloads()` call are skipped and the
exception escapes the callback, leaving the state unchanged and the promise
pending.  Only if `complete()` returned would the intended bookkeeping
(`doNetComplete`) run. -/
def doNetCompleteReal (size : Nat) (s : DLState) (i : Nat) :
    DLState × Option CxxException :=
  match Chunk_complete chunkOwnership with
  | .ok _ => (doNetComplete size s i, none)
  | .error e => (s, some e)

/-- The small-step semantics as actually executed: identical to `Step`
except that a completing transfer goes through `doNetCompleteReal`. -/
inductive StepReal (size : Nat) (obj : Nat → Nat) : DLState → DLState → Prop where
  | netProgress (s : DLState) : StepReal size obj s (start_downloads size s)
  | netComplete (s : DLState) (i : Nat) :
      i ∈ s.transfers → StepReal size obj s (doNetCompleteReal size s i).1
  | netFail (s : DLState) (i : Nat) :
      i ∈ s.transfers → StepReal size obj s (doNetFail size s i)
  | consumeOk (s : DLState) (f : Nat) :
      s.failedAt = none → s.chunks.head? = some f →
      s.results[f]? = some ChunkResult.done → StepReal size obj s (doConsume size obj s f)
  | consumeFail (s : DLState) (f : Nat) :
      s.failedAt = none → s.chunks.head? = some f →
      s.results[f]? = some ChunkResult.failed → StepReal size obj s (doFail s f)

/-- The states one `getObject` invocation reaches as actually executed. -/
inductive ReachReal (size : Nat) (obj : Nat → Nat) : DLState → Prop where
  | init : ReachReal size obj (startState size)
  | step {s t : DLState} : ReachReal size obj s → StepReal size obj s t →
      ReachReal size obj t

/-- Every state the executed program reaches is also a state of the
intended-semantics relation (the executed `COMPLETED` arm changes nothing),
so the safety theorems proven over `Reach` hold a fortiori of the executed
program. -/
theorem reachReal_sub_reach {size : Nat} {obj : Nat → Nat} {s : DLState}
    (h : ReachReal size obj s) : Reach size obj s := by
  induction h with
  | init => exact Reach.init
  | step hr hs ih =>
    cases hs with
    | netProgress => exact Reach.step ih (Step.netProgress _)
    | netComplete i hi => exact ih
    | netFail i hi => exact Reach.step ih (Step.netFail _ i hi)
    | consumeOk f hfa hh hres => exact Reach.step ih (Step.consumeOk _ f hfa hh hres)
    | consumeFail f hfa hh hres => exact Reach.step ih (Step.consumeFail _ f hfa hh hres)

/-- A scheduling pass never delivers anything to the sink. -/
theorem start_downloads_delivered (size : Nat) (s : DLState) :
    (start_downloads size s).delivered = s.delivered := by
  unfold start_downloads
  generalize max_chunks = fuel
  induction fuel generalizing s with
  | zero => rfl
  | succ n ih =>
    unfold start_downloads_fuel
    split
    · rw [ih]
      rfl
    · rfl

/-- A scheduling pass never removes anything from the deque. -/
theorem start_downloads_chunks_le (size : Nat) (s : DLState) :
    s.chunks.length ≤ (start_downloads size s).chunks.length := by
  unfold start_downloads
  generalize max_chunks = fuel
  induction fuel generalizing s with
  | zero => exact le_refl _
  | succ n ih =>
    unfold start_downloads_fuel
    split
    · refine le_trans ?_ (ih (submitChunk size s))
      unfold submitChunk
      dsimp only
      rw [List.length_append]
      omega
    · exact le_refl _

/-- A scheduling pass only adds *pending* promises: it cannot make a chunk
`done`. -/
theorem start_downloads_no_done (size : Nat) (s : DLState)
    (h : ∀ j : Nat, s.results[j]? ≠ some ChunkResult.done) :
    ∀ j : Nat, (start_downloads size s).results[j]? ≠ some ChunkResult.done := by
  unfold start_downloads
  generalize max_chunks = fuel
  induction fuel generalizing s with
  | zero => exact h
  | succ n ih =>
    unfold start_downloads_fuel
    split
    · apply ih
      intro j hcon
      unfold submitChunk at hcon
      dsimp only at hcon
      have hlt := lookup_lt hcon
      rw [List.length_append, List.length_singleton] at hlt
      rcases Nat.lt_succ_iff_lt_or_eq.mp hlt with hl | he
      · rw [List.getElem?_append_left hl] at hcon
        exact h j hcon
      · subst he
        rw [List.getElem?_concat_length] at hcon
        exact absurd (Option.some.inj hcon) (by intro hc; exact ChunkResult.noConfusion hc)
    · exact h

/-- For a non-empty object the initial scheduling pass leaves a non-empty
deque: at least one chunk is submitted. -/
theorem startState_chunks_ne {size : Nat} (hpos : 0 < size) :
    (startState size).chunks ≠ [] := by
  intro hnil
  have hreach : Reach size (fun _ => 0) (startState size) := Reach.init
  obtain ⟨hi, hsched⟩ := reach_inv hreach
  have hdel : (startState size).delivered = [] := by
    show (start_downloads size initState).delivered = []
    rw [start_downloads_delivered]
    rfl
  have hcons : (startState size).consumed = 0 := by
    have hd := hi.delivered_eq
    rw [hdel] at hd
    have hlen := congrArg List.length hd
    simp at hlen
    omega
  obtain ⟨hc, hsize, _⟩ := terminal_facts hreach hnil
  rw [hcons] at hc
  rw [← hc] at hsize
  simp at hsize
  omega

/-- Invariant of the executed program on a non-empty object: since the
`COMPLETED` arm throws before `set_value`, no promise is ever fulfilled with
a value, so nothing is ever delivered and the deque never drains. -/
structure RealInv (s : DLState) : Prop where
  no_done : ∀ j : Nat, s.results[j]? ≠ some ChunkResult.done
  delivered_nil : s.delivered = []
  chunks_ne : s.chunks ≠ []

theorem realInv_start {size : Nat} {s : DLState} (h : RealInv s) :
    RealInv (start_downloads size s) := by
  refine ⟨start_downloads_no_done size s h.no_done, ?_, ?_⟩
  · rw [start_downloads_delivered]
    exact h.delivered_nil
  · intro hnil
    have hle := start_downloads_chunks_le size s
    rw [hnil] at hle
    simp only [List.length_nil, Nat.le_zero] at hle
    exact h.chunks_ne (List.length_eq_zero.mp hle)

theorem stepReal_realInv {size : Nat} {obj : Nat → Nat} {s t : DLState}
    (h : RealInv s) (hs : StepReal size obj s t) : RealInv t := by
  cases hs with
  | netProgress => exact realInv_start h
  | netComplete i hi => exact h
  | netFail i hi =>
    unfold doNetFail
    apply realInv_start
    refine ⟨?_, h.delivered_nil, h.chunks_ne⟩
    intro j hcon
    dsimp only at hcon
    rcases eq_or_ne i j with rfl | hne
    · by_cases hl : i < s.results.length
      · rw [List.getElem?_set_self hl] at hcon
        exact absurd (Option.some.inj hcon) (by intro hc; exact ChunkResult.noConfusion hc)
      · rw [List.getElem?_eq_none (by rw [List.length_set]; omega)] at hcon
        exact Option.noConfusion hcon
    · rw [List.getElem?_set_ne hne] at hcon
      exact h.no_done j hcon
  | consumeOk f hfa hh hres => exact absurd hres (h.no_done f)
  | consumeFail f hfa hh hres => exact ⟨h.no_done, h.delivered_nil, h.chunks_ne⟩

theorem reachReal_inv {size : Nat} {obj : Nat → Nat} {s : DLState}
    (hpos : 0 < size) (h : ReachReal size obj s) : RealInv s := by
  induction h with
  | init =>
    refine ⟨?_, ?_, startState_chunks_ne hpos⟩
    · show ∀ j : Nat, (start_downloads size initState).results[j]? ≠ some ChunkResult.done
      apply start_downloads_no_done
      intro j hcon
      have hlt := lookup_lt hcon
      simp [initState] at hlt
    · show (start_downloads size initState).delivered = []
      rw [start_downloads_delivered]
      rfl
  | step _ hs ih => exact stepReal_realInv ih hs

/-- **C1 (code bug)**: the claim - and the spec's Chunked Downloader
contract - say a fetch of an object of size `N` delivers exactly `N` bytes
to the sink.  The program as written cannot: `Chunk::complete` runs
`promise.set_value(shared_from_this())` (lines 99-103), but a `Chunk` is
only ever owned by `std::unique_ptr` (lines 224/274), so
`shared_from_this()` deterministically throws `std::bad_weak_ptr` before
`set_value`.  The `COMPLETED` callback arm therefore throws without
fulfilling the promise, erasing the transfer or rescheduling, and under the
semantics as executed (`ReachReal`) a fetch of any object of positive size
never delivers a single byte, never marks a chunk `done`, and never drains
its deque - the successful terminal states of
`chunked_fetch_delivers_exactly` (the intended semantics, under which the
claim does hold) are unreachable.  The intent is unmistakable - `Chunk`
inherits `enable_shared_from_this` precisely for this call - so the claim
is right and the ownership is the slip. -/
theorem completed_chunk_throws_no_delivery (size : Nat) (obj : Nat → Nat)
    (s : DLState) (i : Nat) (hpos : 0 < size) (h : ReachReal size obj s) :
    Chunk_complete chunkOwnership = .error CxxException.badWeakPtr
  ∧ doNetCompleteReal size s i = (s, some CxxException.badWeakPtr)
  ∧ s.delivered = []
  ∧ s.chunks ≠ []
  ∧ (∀ j : Nat, s.results[j]? ≠ some ChunkResult.done) := by
  obtain ⟨hnd, hdel, hne⟩ := reachReal_inv hpos h
  exact ⟨rfl, rfl, hdel, hne, hnd⟩

theorem completed_chunk_throws_no_delivery_witness :
    (startState 1).delivered = [] ∧ (startState 1).chunks ≠ [] :=
  ⟨(completed_chunk_throws_no_delivery 1 objW _ 0 (by decide)
      (ReachReal.step ReachReal.init (StepReal.netComplete _ 0 (by decide)))).2.2.1,
   (completed_chunk_throws_no_delivery 1 objW _ 0 (by decide)
      (ReachReal.step ReachReal.init (StepReal.netComplete _ 0 (by decide)))).2.2.2.1⟩
